import Mathlib

/-!
Verification of the PantryPilot smart-inventory core
(`model_deployment/backend/utils/smart_inventory.py` and the deduction loop of
`mark_recipe_cooked` in `model_deployment/backend/routers/recipes.py`).

Modelling conventions:
* Python floats are modelled as exact rationals (`ℚ`); decimal constants such
  as `453.592` are written as exact fractions (`453592 / 1000`), and the
  `0.45` matcher threshold as `45 / 100`.
* Python strings are Lean `String`s; `str.lower`/`str.strip` and the regex
  character classes are modelled at ASCII precision (`\s` is the six ASCII
  whitespace characters), which covers every behaviour the claims exercise.
* A Python value that may be `None` is an `Option`; Python truthiness of a
  string-or-None value is `pyFalsy` (falsy iff `None` or the empty string).
* The three `re` patterns used by `parse_ingredient` are compiled by hand into
  total functions implementing the exact leftmost/greedy/backtracking
  semantics of the patterns (validated against CPython `re` case by case).
-/

attribute [local semireducible] Rat.mul Rat.add Rat.sub Rat.inv Rat.ofScientific

namespace PantryPilot

/-- ASCII whitespace, the characters matched by Python `\s` / `str.strip()`. -/
def pyWs (c : Char) : Bool :=
  c = ' ' ∨ c = '\t' ∨ c = '\n' ∨ c = '\r' ∨ c = '\x0b' ∨ c = '\x0c'

/-- ASCII lowering, modelling `str.lower()`. -/
def pyLower (c : Char) : Char :=
  if 65 ≤ c.toNat ∧ c.toNat ≤ 90 then Char.ofNat (c.toNat + 32) else c

/-- Characters matched by `[a-zA-Z]`. -/
def isAsciiLetter (c : Char) : Bool :=
  ('a' ≤ c ∧ c ≤ 'z') ∨ ('A' ≤ c ∧ c ≤ 'Z')

/-- Characters matched by `[\d\.\/]` (ASCII digits, dot, slash). -/
def isDigitDotSlash (c : Char) : Bool :=
  c.isDigit ∨ c = '.' ∨ c = '/'

/-- Split a character list into its maximal leading run satisfying `p` and the
remainder (the regex-greedy match of `p*` at the current position). -/
def splitRun (p : Char → Bool) (cs : List Char) : List Char × List Char :=
  (cs.takeWhile p, cs.dropWhile p)

/-- `str.strip()`: drop ASCII whitespace from both ends. -/
def pyStrip (cs : List Char) : List Char :=
  ((cs.dropWhile pyWs).reverse.dropWhile pyWs).reverse

/-- `str.strip()` on a `String`. -/
def pyStripStr (s : String) : String :=
  (pyStrip s.toList).asString

/-- `str.lower()` on a `String` (ASCII). -/
def pyLowerStr (s : String) : String :=
  (s.toList.map pyLower).asString

/-- Python truthiness test for an optional string: falsy iff `None` or `""`. -/
def pyFalsy : Option String → Bool
  | none => true
  | some s => s = ""

/-- Python `x or y` for an optional string `x` with string default `y`. -/
def pyOrStr (o : Option String) (d : String) : String :=
  match o with
  | none => d
  | some s => if s = "" then d else s

/-! ### Unit table (`UNIT_MAPPINGS`, `WEIGHT_TO_G`, `VOLUME_TO_ML`) -/

/-- `UNIT_MAPPINGS`: unit spellings to canonical keys. -/
def UNIT_MAPPINGS : List (String × String) :=
  [("lb", "lb"), ("lbs", "lb"), ("pound", "lb"), ("pounds", "lb"),
   ("oz", "oz"), ("ounce", "oz"), ("ounces", "oz"),
   ("kg", "kg"), ("kilogram", "kg"), ("kilograms", "kg"),
   ("g", "g"), ("gram", "g"), ("grams", "g"),
   ("cup", "cup"), ("cups", "cup"),
   ("tbsp", "tbsp"), ("tablespoon", "tbsp"), ("tablespoons", "tbsp"),
   ("tsp", "tsp"), ("teaspoon", "tsp"), ("teaspoons", "tsp"),
   ("ml", "ml"), ("milliliter", "ml"), ("milliliters", "ml"),
   ("l", "l"), ("liter", "l"), ("liters", "l"),
   ("fl oz", "fl oz"), ("fluid ounce", "fl oz"),
   ("pc", "pcs"), ("pcs", "pcs"), ("piece", "pcs"), ("pieces", "pcs"),
   ("unit", "pcs"), ("units", "pcs"),
   ("can", "can"), ("cans", "can"),
   ("bunch", "bunch"), ("bunches", "bunch"),
   ("head", "head"), ("heads", "head"),
   ("clove", "clove"), ("cloves", "clove")]

/-- `WEIGHT_TO_G`: weight conversion factors to grams. -/
def WEIGHT_TO_G : List (String × ℚ) :=
  [("g", 1), ("kg", 1000), ("lb", 453592 / 1000), ("oz", 283495 / 10000)]

/-- `VOLUME_TO_ML`: volume conversion factors to milliliters. -/
def VOLUME_TO_ML : List (String × ℚ) :=
  [("ml", 1), ("l", 1000), ("cup", 236588 / 1000), ("tbsp", 147868 / 10000),
   ("tsp", 492892 / 100000), ("fl oz", 295735 / 10000)]

/-- Dict membership/lookup for the factor tables, applied to a normalized
(optional) unit key. -/
def lookupFam (t : List (String × ℚ)) : Option String → Option ℚ
  | none => none
  | some s => t.lookup s

/-- `normalize_unit`: `None`/`""` yield `None`; otherwise look up the
lowered/stripped spelling in `UNIT_MAPPINGS`, and pass unknown spellings
through lowered/stripped. -/
def normalize_unit : Option String → Option String
  | none => none
  | some s =>
    if s = "" then none
    else
      let key := pyStripStr (pyLowerStr s)
      some ((UNIT_MAPPINGS.lookup key).getD key)

/-! ### Number parsing (`parse_qty` and Python `float`) -/

/-- Decimal value of a digit run. -/
def digitsVal (ds : List Char) : ℕ :=
  ds.foldl (fun acc c => 10 * acc + (c.toNat - '0'.toNat)) 0

/-- Python `float(s)` restricted to the `[0-9./]` alphabet the parser feeds it:
defined iff the string has no slash, at most one dot and at least one digit.
Returns `none` where CPython raises `ValueError`. -/
def pyFloat (cs : List Char) : Option ℚ :=
  if cs.all (fun c => c.isDigit ∨ c = '.') then
    match cs.splitOn '.' with
    | [a] => if a = [] then none else some (digitsVal a)
    | [a, b] =>
      if a = [] ∧ b = [] then none
      else some ((digitsVal a : ℚ) + (digitsVal b : ℚ) / (10 ^ b.length : ℚ))
    | _ => none
  else none

/-- `parse_qty` inside `parse_ingredient`: fraction-aware float parse where
every Python exception (bad float, wrong number of `/`-parts, division by
zero) is caught and turned into `1.0`. -/
def parse_qty (cs : List Char) : ℚ :=
  if cs.contains '/' then
    match cs.splitOn '/' with
    | [a, b] =>
      match pyFloat a, pyFloat b with
      | some n, some d => if d = 0 then 1 else n / d
      | _, _ => 1
    | _ => 1
  else (pyFloat cs).getD 1

/-! ### The three regex rules of `parse_ingredient`

`leadingMatch` implements `^\s*([\d\.\/]+)\s*([a-zA-Z]+)?\s+(.*)`,
`parenMatch` implements `^(?P<name>[^()]+)\(\s*(?P<qty>[\d\.\/]+)\s*(?P<unit>[a-zA-Z]+)`,
`inlineMatch` implements an unanchored search for `([\d\.\/]+)\s*([a-zA-Z]+)`,
each with the exact greedy/backtracking behaviour of CPython `re.search`. -/

/-- Greedy `(.*)`: everything up to the first newline. -/
def dotStar (cs : List Char) : List Char :=
  cs.takeWhile (fun c => c ≠ '\n')

/-- Match of the leading-quantity rule; yields (number chars, optional unit
token, name chars). The number group is the maximal `[\d./]` run; a unit
group is kept only when it is followed by whitespace, otherwise backtracking
re-reads it as part of the name (which requires whitespace after the
number). -/
def leadingMatch (cs : List Char) : Option (List Char × Option (List Char) × List Char) :=
  let cs1 := (splitRun pyWs cs).2
  match splitRun isDigitDotSlash cs1 with
  | ([], _) => none
  | (d, rest1) =>
    let (w1, rest2) := splitRun pyWs rest1
    let (l, rest3) := splitRun isAsciiLetter rest2
    match l, splitRun pyWs rest3 with
    | _ :: _, (_ :: _, rest4) => some (d, some l, dotStar rest4)
    | _, _ => if w1 = [] then none else some (d, none, dotStar rest2)

/-- Match of the parenthetical rule; yields (name chars, number chars, unit
chars). The name is everything before the first parenthesis character, which
must be `(` and not at position 0. -/
def parenMatch (cs : List Char) : Option (List Char × List Char × List Char) :=
  match splitRun (fun c => c ≠ '(' ∧ c ≠ ')') cs with
  | (nm@(_ :: _), '(' :: inside) =>
    let in1 := (splitRun pyWs inside).2
    match splitRun isDigitDotSlash in1 with
    | ([], _) => none
    | (d, r1) =>
      let r2 := (splitRun pyWs r1).2
      match splitRun isAsciiLetter r2 with
      | ([], _) => none
      | (l, _) => some (nm, d, l)
  | _ => none

/-- Match of the inline rule: leftmost position with a `[\d./]` run followed
by optional whitespace and at least one letter. -/
def inlineMatch : List Char → Option (List Char × List Char)
  | [] => none
  | c :: cs' =>
    if isDigitDotSlash c then
      let (d, r1) := splitRun isDigitDotSlash (c :: cs')
      let r2 := (splitRun pyWs r1).2
      match splitRun isAsciiLetter r2 with
      | ([], _) => inlineMatch cs'
      | (l, _) => some (d, l)
    else inlineMatch cs'

/-- `parse_ingredient`: free-text ingredient line to (quantity, unit, name).
The branch guarded by `normalize_unit(unit_str) is None` is translated
verbatim from the source even though `normalize_unit` never returns `None`
for a non-empty token, so that branch never fires. -/
def parse_ingredient (ingredient_text : String) : ℚ × String × String :=
  let text := pyStrip ingredient_text.toList
  match leadingMatch text with
  | some (qs, uopt, nm) =>
    let qty := parse_qty qs
    let unitN := normalize_unit (uopt.map List.asString)
    let u1 := pyOrStr unitN "pcs"
    let deadGuard : Bool := match uopt with
      | some us => us.asString ≠ "" ∧ normalize_unit (some us.asString) = none
      | none => false
    if deadGuard then
      (qty, "pcs", (pyStrip ((uopt.getD []) ++ ' ' :: nm)).asString)
    else
      (qty, u1, (pyStrip nm).asString)
  | none =>
    match parenMatch text with
    | some (nm, qs, us) =>
      (parse_qty qs, pyOrStr (normalize_unit (some us.asString)) "pcs",
       (pyStrip (pyStrip nm)).asString)
    | none =>
      match inlineMatch text with
      | some (qs, us) =>
        (parse_qty qs, pyOrStr (normalize_unit (some us.asString)) "pcs",
         (pyStrip text).asString)
      | none => (1, "pcs", (pyStrip text).asString)

/-! ### `convert_unit` -/

/-- `convert_unit`: convert a quantity between two (optional) unit strings,
`none` when incompatible. -/
def convert_unit (qty : ℚ) (from_unit to_unit : Option String) : Option ℚ :=
  let from_u := normalize_unit from_unit
  let to_u := normalize_unit to_unit
  if pyFalsy from_u ∨ pyFalsy to_u then none
  else if from_u = to_u then some qty
  else
    match lookupFam WEIGHT_TO_G from_u, lookupFam WEIGHT_TO_G to_u with
    | some wf, some wt => some (qty * wf / wt)
    | _, _ =>
      match lookupFam VOLUME_TO_ML from_u, lookupFam VOLUME_TO_ML to_u with
      | some vf, some vt => some (qty * vf / vt)
      | _, _ => none

/-! ### Text normalization -/

/-- `norm_text`: lower-case, replace every character outside `[a-z0-9\s]`
with a space, then `strip()` (no collapsing of inner whitespace). -/
def norm_text (s : String) : String :=
  (pyStrip ((s.toList.map pyLower).map
    (fun c => if (('a' ≤ c ∧ c ≤ 'z') ∨ c.isDigit ∨ pyWs c) then c else ' '))).asString

/-! ### `similarity` (CPython `difflib.SequenceMatcher(None, a, b).ratio()`)

The matcher scores names with `SequenceMatcher.ratio()`; we embed the stdlib
algorithm: `b2j` index table with the autojunk purge of popular elements
(active only when `len(b) >= 200`; `isjunk` is `None` so the junk set is
empty and the junk-extension loops of `find_longest_match` never run),
`find_longest_match` as the `j2len` dynamic program plus the two non-junk
extension loops, and the matching-blocks total as the recursion the queue in
`get_matching_blocks` performs.  Reference values validated against CPython
(e.g. ratio("organic bananas","banana") = 4/7). -/

/-- Indexing with the out-of-range default `' '`; every access the algorithm
performs is in range. -/
def chAt (l : List Char) (i : ℕ) : Char :=
  l.getD i ' '

/-- Number of occurrences of `c` in `b` (`len(b2j[c])`). -/
def countIn (b : List Char) (c : Char) : ℕ :=
  (b.filter (fun x => x = c)).length

/-- Autojunk popularity test from `SequenceMatcher.__chain_b`. -/
def isPopular (b : List Char) (c : Char) : Bool :=
  b.length ≥ 200 ∧ countIn b c > b.length / 100 + 1

/-- `b2j[c]`: ascending positions of `c` in `b`, with popular elements purged
by autojunk. -/
def b2j (b : List Char) (c : Char) : List ℕ :=
  if isPopular b c then []
  else (List.range b.length).filter (fun j => chAt b j = c)

/-- First extension loop of `find_longest_match` (junk set is empty, so the
`not isbjunk` guard is vacuous). Structural recursion on `besti`, which the
loop decrements while `alo < besti`. -/
def extendLow (a b : List Char) (alo blo : ℕ) : ℕ → ℕ → ℕ → ℕ × ℕ × ℕ
  | 0, bestj, bestsize => (0, bestj, bestsize)
  | besti + 1, bestj, bestsize =>
    if alo < besti + 1 ∧ blo < bestj ∧ chAt a besti = chAt b (bestj - 1) then
      extendLow a b alo blo besti (bestj - 1) (bestsize + 1)
    else (besti + 1, bestj, bestsize)

/-- Second extension loop of `find_longest_match`.  The first `ℕ` argument is
fuel bounding the number of `bestsize` increments; the loop guard
`besti + bestsize < ahi` breaks after at most `ahi` increments, so calling
with fuel `ahi` computes the loop exactly. -/
def extendHigh (a b : List Char) (ahi bhi besti bestj : ℕ) : ℕ → ℕ → ℕ
  | 0, bestsize => bestsize
  | fuel + 1, bestsize =>
    if besti + bestsize < ahi ∧ bestj + bestsize < bhi ∧
        chAt a (besti + bestsize) = chAt b (bestj + bestsize) then
      extendHigh a b ahi bhi besti bestj fuel (bestsize + 1)
    else bestsize

/-- `find_longest_match(alo, ahi, blo, bhi)`: the `j2len` dynamic program
(the dict is an association list; each inner pass writes distinct keys), then
the two extension loops. -/
def flm (a b : List Char) (alo ahi blo bhi : ℕ) : ℕ × ℕ × ℕ :=
  let step := fun (st : List (ℕ × ℕ) × ℕ × ℕ × ℕ) (i : ℕ) =>
    let j2len := st.1
    ((b2j b (chAt a i)).filter (fun j => blo ≤ j ∧ j < bhi)).foldl
      (fun (st2 : List (ℕ × ℕ) × ℕ × ℕ × ℕ) (j : ℕ) =>
        let k := (if j = 0 then 0 else ((j2len.lookup (j - 1)).getD 0)) + 1
        let nj := (j, k) :: st2.1
        if st2.2.2.2 < k then (nj, i + 1 - k, j + 1 - k, k) else (nj, st2.2))
      ([], st.2)
  let res := (List.range' alo (ahi - alo)).foldl step ([], alo, blo, 0)
  let low := extendLow a b alo blo res.2.1 res.2.2.1 res.2.2.2
  (low.1, low.2.1, extendHigh a b ahi bhi low.1 low.2.1 ahi low.2.2)

/-- Total size of all matching blocks: the sum of `k` over the recursion tree
explored by the queue in `get_matching_blocks`.  The first argument is fuel;
each recursive call strictly shrinks `(ahi - alo) + (bhi - blo)`, so fuel
`len(a) + len(b) + 1` always suffices. -/
def matchBlockSum (a b : List Char) : ℕ → ℕ → ℕ → ℕ → ℕ → ℕ
  | 0, _, _, _, _ => 0
  | fuel + 1, alo, ahi, blo, bhi =>
    let r := flm a b alo ahi blo bhi
    let i := r.1
    let j := r.2.1
    let k := r.2.2
    if k = 0 then 0
    else
      (if alo < i ∧ blo < j then matchBlockSum a b fuel alo i blo j else 0)
      + k
      + (if i + k < ahi ∧ j + k < bhi then
          matchBlockSum a b fuel (i + k) ahi (j + k) bhi
        else 0)

/-- `SequenceMatcher(None, a, b).ratio()` = `2 * M / (len(a) + len(b))`,
or `1.0` on two empty sequences. -/
def pyRatio (a b : List Char) : ℚ :=
  let total := a.length + b.length
  if total = 0 then 1
  else 2 * (matchBlockSum a b (total + 1) 0 a.length 0 b.length : ℚ) / total

/-- `similarity`: normalize both strings, `0.0` if either normalizes to
empty, otherwise the `SequenceMatcher` ratio. -/
def similarity (a b : String) : ℚ :=
  let a_norm := norm_text a
  let b_norm := norm_text b
  if a_norm = "" ∨ b_norm = "" then 0
  else pyRatio a_norm.toList b_norm.toList

/-! ### Inventory records and `find_best_inventory_match` -/

/-- The fields of an `InventoryItem` row the deduction workflow reads or
writes (`item_name`, `quantity`, `unit`; the `unit` column is nullable). -/
structure InventoryItem where
  item_name : String
  quantity : ℚ
  unit : Option String
deriving DecidableEq, Repr

/-- The loop of `find_best_inventory_match`, with the accumulator made
explicit and the index of each record carried along (the index models which
Python object `best` references). -/
def fbLoop (ing_norm : String) (best : Option (ℕ × InventoryItem))
    (best_score : ℚ) (idx : ℕ) : List InventoryItem → Option (ℕ × InventoryItem) × ℚ
  | [] => (best, best_score)
  | item :: rest =>
    let score := similarity item.item_name ing_norm
    if best_score < score then fbLoop ing_norm (some (idx, item)) score (idx + 1) rest
    else fbLoop ing_norm best best_score (idx + 1) rest

/-- `find_best_inventory_match` with the matched record's position exposed
(Python returns the record object itself; the position is its identity). -/
def find_best_core (inventory_items : List InventoryItem) (ingredient_name : String)
    (min_score : ℚ) : Option (ℕ × InventoryItem) × ℚ :=
  let ing_norm := norm_text ingredient_name
  let r := fbLoop ing_norm none 0 0 inventory_items
  if min_score ≤ r.2 then r else (none, 0)

/-- `find_best_inventory_match` as in the source: best record and score, or
`(None, 0.0)` below the threshold. -/
def find_best_inventory_match (inventory_items : List InventoryItem)
    (ingredient_name : String) (min_score : ℚ) :
    Option InventoryItem × ℚ :=
  let r := find_best_core inventory_items ingredient_name min_score
  (r.1.map Prod.snd, r.2)

/-! ### The deduction loop of `mark_recipe_cooked` -/

/-- Audit value for one processed requirement (what the source prints per
iteration): the amount deducted, whether the count fallback was used, and the
record's resulting quantity. -/
structure DeductionOutcome where
  appliedAmount : ℚ
  usedFallback : Bool
  resultingQuantity : ℚ
deriving DecidableEq, Repr

/-- `history.servings if history.servings else 1`: the `servings` column is a
nullable integer; `None` and `0` are falsy. -/
def effServings : Option ℤ → ℚ
  | none => 1
  | some v => if v = 0 then 1 else (v : ℚ)

/-- One iteration of the loop over `recipe_data["main_ingredients"]`: parse
the requirement, find the best inventory match, convert, and clamp-deduct in
place; `none` outcome on the two `continue` paths (empty text, no match). -/
def cookStep (servings : Option ℤ) (inv : List InventoryItem)
    (ingredient_text : String) : List InventoryItem × Option DeductionOutcome :=
  if ingredient_text = "" then (inv, none)
  else
    let p := parse_ingredient ingredient_text
    let req_qty := p.1
    let req_unit := p.2.1
    let req_name := p.2.2
    match find_best_core inv req_name (45 / 100) with
    | (none, _) => (inv, none)
    | (some (i, match_item), _) =>
      let inv_unit := normalize_unit match_item.unit
      match convert_unit req_qty (some req_unit) inv_unit with
      | some converted_qty =>
        let deduction_amount := converted_qty * effServings servings
        let newq := max 0 (match_item.quantity - deduction_amount)
        (inv.set i { match_item with quantity := newq },
         some ⟨deduction_amount, false, newq⟩)
      | none =>
        let deduction_amount := effServings servings
        let newq := max 0 (match_item.quantity - deduction_amount)
        (inv.set i { match_item with quantity := newq },
         some ⟨deduction_amount, true, newq⟩)

/-- The whole loop, returning the mutated inventory and one outcome slot per
requirement. -/
def runDeduction (servings : Option ℤ) (reqs : List String)
    (inv : List InventoryItem) : List InventoryItem × List (Option DeductionOutcome) :=
  reqs.foldl
    (fun acc r =>
      let s := cookStep servings acc.1 r
      (s.1, acc.2 ++ [s.2]))
    (inv, [])

/-- The deduction part of the `mark_recipe_cooked` route, after the 404
check: `main_ingredients` is `none` when `recipe_json` is missing or has no
`"main_ingredients"` key.  The error channel models a Python exception
escaping the handler; no statement in the loop raises, so the result is
always `ok`. -/
def mark_recipe_cooked (servings : Option ℤ) (main_ingredients : Option (List String))
    (inv : List InventoryItem) :
    Except String (List InventoryItem × List (Option DeductionOutcome)) :=
  match main_ingredients with
  | none => .ok (inv, [])
  | some reqs => .ok (runDeduction servings reqs inv)

/-- The unit-family condition under which `convert_unit` fails (and the
deduction loop takes the count-fallback path): one side normalizes to a
falsy key (`None`/empty), or the keys differ and are not both weight keys
nor both volume keys.  Two equal non-falsy keys — recognized or not — never
satisfy it. -/
def familyFallback (k1 k2 : Option String) : Prop :=
  pyFalsy k1 = true ∨ pyFalsy k2 = true
  ∨ (k1 ≠ k2
     ∧ ¬ ((lookupFam WEIGHT_TO_G k1).isSome ∧ (lookupFam WEIGHT_TO_G k2).isSome)
     ∧ ¬ ((lookupFam VOLUME_TO_ML k1).isSome ∧ (lookupFam VOLUME_TO_ML k2).isSome))

instance (k1 k2 : Option String) : Decidable (familyFallback k1 k2) := by
  unfold familyFallback
  infer_instance

/-! ### Reference definition of the matcher, following the spec text -/

/-- First maximum of a score list, spec-style: position and value of the
maximum, ties keeping the earliest position. -/
def firstMaxIdx : List ℚ → Option (ℕ × ℚ)
  | [] => none
  | x :: xs =>
    match firstMaxIdx xs with
    | none => some (0, x)
    | some (i, m) => if x < m then some (i + 1, m) else some (0, x)

/-- The spec's description of `findBestMatch`: score every record in order
against the normalized ingredient name, select the first record attaining
the maximum, and return it with its score iff the score reaches `min_score`,
else `(none, 0)`. -/
def findBestMatchSpec (items : List InventoryItem) (ingredient_name : String)
    (min_score : ℚ) : Option InventoryItem × ℚ :=
  match firstMaxIdx (items.map fun it => similarity it.item_name (norm_text ingredient_name)) with
  | none => (none, 0)
  | some (i, m) => if min_score ≤ m then (items[i]?, m) else (none, 0)


/-! ## Supporting lemmas -/

lemma char_eq_iff (c d : Char) : c = d ↔ c.toNat = d.toNat :=
  ⟨fun h => h ▸ rfl, fun h => Char.ext (UInt32.toNat.inj h)⟩

lemma toNat_charOfNat (n : ℕ) (h : n.isValidChar) : (Char.ofNat n).toNat = n := by
  simp only [Char.ofNat, dif_pos h, Char.ofNatAux, Char.toNat, UInt32.toNat]
  simp

lemma toNat_pyLower (c : Char) :
    (pyLower c).toNat = if 65 ≤ c.toNat ∧ c.toNat ≤ 90 then c.toNat + 32 else c.toNat := by
  unfold pyLower
  by_cases h : 65 ≤ c.toNat ∧ c.toNat ≤ 90
  · rw [if_pos h, if_pos h, toNat_charOfNat]
    exact Or.inl (by omega)
  · rw [if_neg h, if_neg h]

lemma pyLower_idem (c : Char) : pyLower (pyLower c) = pyLower c := by
  have key := toNat_pyLower c
  rw [char_eq_iff, toNat_pyLower (pyLower c), key]
  split_ifs <;> omega

lemma pyWs_toNat (c : Char) :
    pyWs c = decide (c.toNat = 32 ∨ c.toNat = 9 ∨ c.toNat = 10 ∨ c.toNat = 13 ∨
      c.toNat = 11 ∨ c.toNat = 12) := by
  have h32 : (' ' : Char).toNat = 32 := rfl
  have h9 : ('\t' : Char).toNat = 9 := rfl
  have h10 : ('\n' : Char).toNat = 10 := rfl
  have h13 : ('\r' : Char).toNat = 13 := rfl
  have h11 : ('\x0b' : Char).toNat = 11 := rfl
  have h12 : ('\x0c' : Char).toNat = 12 := rfl
  unfold pyWs
  rw [decide_eq_decide]
  simp only [char_eq_iff, h32, h9, h10, h13, h11, h12]

lemma pyWs_pyLower (c : Char) : pyWs (pyLower c) = pyWs c := by
  rw [pyWs_toNat, pyWs_toNat, decide_eq_decide, toNat_pyLower]
  split_ifs <;> omega

lemma head?_dropWhile {α} {p : α → Bool} :
    ∀ {l : List α} {c : α}, (l.dropWhile p).head? = some c → p c = false := by
  intro l
  induction l with
  | nil => intro c h; simp [List.dropWhile] at h
  | cons a t ih =>
    intro c h
    by_cases hp : p a
    · rw [List.dropWhile_cons_of_pos hp] at h
      exact ih h
    · rw [List.dropWhile_cons_of_neg hp] at h
      simp at h
      subst h
      simpa using hp

lemma getLast?_dropWhile {α} {p : α → Bool} {l : List α}
    (h : l.dropWhile p ≠ []) : (l.dropWhile p).getLast? = l.getLast? := by
  obtain ⟨t, ht⟩ := @List.dropWhile_suffix _ l p
  conv_rhs => rw [← ht]
  rw [List.getLast?_append_of_ne_nil _ h]

lemma mem_pyStrip {c : Char} {l : List Char} (h : c ∈ pyStrip l) : c ∈ l := by
  unfold pyStrip at h
  rw [List.mem_reverse] at h
  have h2 := (List.dropWhile_sublist pyWs).mem h
  rw [List.mem_reverse] at h2
  exact (List.dropWhile_sublist pyWs).mem h2

lemma head?_pyStrip {l : List Char} {c : Char}
    (h : (pyStrip l).head? = some c) : pyWs c = false := by
  unfold pyStrip at h
  rw [List.head?_reverse] at h
  have hne : (List.dropWhile pyWs l).reverse.dropWhile pyWs ≠ [] := by
    intro hnil; rw [hnil] at h; simp at h
  rw [getLast?_dropWhile hne, List.getLast?_reverse] at h
  exact head?_dropWhile h

lemma getLast?_pyStrip {l : List Char} {c : Char}
    (h : (pyStrip l).getLast? = some c) : pyWs c = false := by
  unfold pyStrip at h
  rw [List.getLast?_reverse] at h
  exact head?_dropWhile h

lemma dropWhile_of_head?_not {α} {p : α → Bool} {l : List α}
    (h : ∀ c, l.head? = some c → p c = false) : l.dropWhile p = l := by
  cases l with
  | nil => rfl
  | cons a t =>
    have := h a rfl
    rw [List.dropWhile_cons_of_neg (by simp [this])]

lemma pyStrip_idem (l : List Char) : pyStrip (pyStrip l) = pyStrip l := by
  have h1 : (pyStrip l).dropWhile pyWs = pyStrip l :=
    dropWhile_of_head?_not (fun c hc => head?_pyStrip hc)
  have h2 : (pyStrip l).reverse.dropWhile pyWs = (pyStrip l).reverse := by
    apply dropWhile_of_head?_not
    intro c hc
    rw [List.head?_reverse] at hc
    exact getLast?_pyStrip hc
  show ((((pyStrip l).dropWhile pyWs).reverse.dropWhile pyWs)).reverse = pyStrip l
  rw [h1, h2, List.reverse_reverse]

lemma map_pyLower_pyStrip (l : List Char) :
    pyStrip (l.map pyLower) = (pyStrip l).map pyLower := by
  have hcomp : (pyWs ∘ pyLower) = pyWs := funext fun c => pyWs_pyLower c
  unfold pyStrip
  rw [List.dropWhile_map, hcomp, ← List.map_reverse, List.dropWhile_map, hcomp,
    ← List.map_reverse]

lemma map_pyLower_idem (l : List Char) :
    (l.map pyLower).map pyLower = l.map pyLower := by
  rw [List.map_map]
  exact List.map_congr_left (fun c _ => pyLower_idem c)

lemma stripLower_idem (s : String) :
    pyStripStr (pyLowerStr (pyStripStr (pyLowerStr s))) = pyStripStr (pyLowerStr s) := by
  unfold pyStripStr pyLowerStr
  simp only [List.toList_asString]
  rw [← map_pyLower_pyStrip, map_pyLower_idem, pyStrip_idem]

lemma lookup_mem {β : Type} {as : List (String × β)} {k : String} {v : β}
    (h : as.lookup k = some v) : (k, v) ∈ as := by
  induction as with
  | nil => simp [List.lookup] at h
  | cons a t ih =>
    obtain ⟨a1, a2⟩ := a
    rw [List.lookup] at h
    by_cases hk : (k == a1) = true
    · simp only [hk] at h
      have hkk : k = a1 := by simpa using hk
      have hv : a2 = v := by simpa using h
      subst hkk; subst hv
      exact List.mem_cons_self _ _
    · simp only [Bool.not_eq_true] at hk
      simp only [hk] at h
      exact List.mem_cons_of_mem _ (ih h)

/-- Canonical keys produced by the table are fixed points of `normalize_unit`:
every value of `UNIT_MAPPINGS` is lower/strip-stable and maps to itself. -/
lemma unit_values_fixed :
    ∀ p ∈ UNIT_MAPPINGS, pyStripStr (pyLowerStr p.2) = p.2
      ∧ UNIT_MAPPINGS.lookup p.2 = some p.2 := by decide

lemma normalize_fix {u : Option String} {tok : String}
    (h : normalize_unit u = some tok) (ht : tok ≠ "") :
    normalize_unit (some tok) = some tok := by
  match u with
  | none => simp [normalize_unit] at h
  | some s =>
    by_cases hs : s = ""
    · simp [normalize_unit, hs] at h
    · simp only [normalize_unit, if_neg hs, Option.some_inj] at h
      cases hl : UNIT_MAPPINGS.lookup (pyStripStr (pyLowerStr s)) with
      | some v =>
        rw [hl, Option.getD_some] at h
        subst h
        have hmem := lookup_mem hl
        have hv1 : pyStripStr (pyLowerStr v) = v := (unit_values_fixed _ hmem).1
        have hv2 : UNIT_MAPPINGS.lookup v = some v := (unit_values_fixed _ hmem).2
        simp only [normalize_unit, if_neg ht, hv1, hv2, Option.getD_some]
      | none =>
        rw [hl, Option.getD_none] at h
        subst h
        simp only [normalize_unit, if_neg ht, stripLower_idem s, hl, Option.getD_none]

lemma firstMaxIdx_eq_none {xs : List ℚ} (h : firstMaxIdx xs = none) : xs = [] := by
  cases xs with
  | nil => rfl
  | cons x t =>
    rw [firstMaxIdx] at h
    cases h2 : firstMaxIdx t with
    | none => rw [h2] at h; simp at h
    | some p =>
      rcases p with ⟨i, m⟩
      rw [h2] at h
      simp only at h
      split at h <;> simp at h

lemma fbLoop_of_none (nm : String) {l : List InventoryItem}
    (hm : firstMaxIdx (l.map fun it => similarity it.item_name nm) = none) :
    ∀ best bs idx, fbLoop nm best bs idx l = (best, bs) := by
  have hl : l = [] := by
    have := firstMaxIdx_eq_none hm
    simpa using this
  subst hl
  intro best bs idx
  rfl

lemma fbLoop_of_some (nm : String) :
    ∀ (l : List InventoryItem) (i : ℕ) (m : ℚ),
    firstMaxIdx (l.map fun it => similarity it.item_name nm) = some (i, m) →
    ∀ best bs idx, fbLoop nm best bs idx l =
      if bs < m then ((l[i]?).map (fun it => (idx + i, it)), m) else (best, bs) := by
  intro l
  induction l with
  | nil => intro i m hm; simp [firstMaxIdx] at hm
  | cons it rest ih =>
    intro i m hm best bs idx
    simp only [List.map_cons, firstMaxIdx] at hm
    rw [fbLoop]
    cases hm' : firstMaxIdx (rest.map fun x => similarity x.item_name nm) with
    | none =>
      have hrest : rest = [] := by
        have := firstMaxIdx_eq_none hm'
        simpa using this
      subst hrest
      rw [hm'] at hm
      simp only [Option.some_inj, Prod.mk.injEq] at hm
      obtain ⟨hi, hmm⟩ := hm
      subst hi; subst hmm
      by_cases hbs : bs < similarity it.item_name nm
      · rw [if_pos hbs, if_pos hbs]
        simp [fbLoop]
      · rw [if_neg hbs, if_neg hbs]
        simp [fbLoop]
    | some p =>
      rcases p with ⟨i', m'⟩
      rw [hm'] at hm
      simp only at hm
      by_cases hsm : similarity it.item_name nm < m'
      · rw [if_pos hsm] at hm
        simp only [Option.some_inj, Prod.mk.injEq] at hm
        obtain ⟨hi, hmm⟩ := hm
        subst hi; subst hmm
        have harith : idx + 1 + i' = idx + (i' + 1) := by omega
        by_cases hbs : bs < similarity it.item_name nm
        · rw [if_pos hbs, ih i' m' hm' (some (idx, it)) (similarity it.item_name nm) (idx + 1),
            if_pos hsm, if_pos (lt_trans hbs hsm)]
          simp only [List.getElem?_cons_succ, harith]
        · rw [if_neg hbs, ih i' m' hm' best bs (idx + 1)]
          simp only [List.getElem?_cons_succ, harith]
      · rw [if_neg hsm] at hm
        simp only [Option.some_inj, Prod.mk.injEq] at hm
        obtain ⟨hi, hmm⟩ := hm
        subst hi; subst hmm
        by_cases hbs : bs < similarity it.item_name nm
        · rw [if_pos hbs, ih i' m' hm' (some (idx, it)) (similarity it.item_name nm) (idx + 1),
            if_neg hsm, if_pos hbs]
          simp
        · rw [if_neg hbs, ih i' m' hm' best bs (idx + 1), if_neg hbs]
          have : ¬ bs < m' := by
            push_neg at hsm hbs ⊢
            linarith
          rw [if_neg this]

lemma find_best_core_mem {items : List InventoryItem} {nm : String} {ms : ℚ}
    {i : ℕ} {it : InventoryItem} {sc : ℚ}
    (h : find_best_core items nm ms = (some (i, it), sc)) : items[i]? = some it := by
  simp only [find_best_core] at h
  cases hm : firstMaxIdx (items.map fun x => similarity x.item_name (norm_text nm)) with
  | none =>
    rw [fbLoop_of_none (norm_text nm) hm] at h
    split at h <;> simp at h
  | some p =>
    rcases p with ⟨i0, m⟩
    rw [fbLoop_of_some (norm_text nm) items i0 m hm] at h
    by_cases h0 : (0 : ℚ) < m
    · rw [if_pos h0] at h
      simp only at h
      by_cases hms : ms ≤ m
      · rw [if_pos hms] at h
        cases hg : items[i0]? with
        | none => rw [hg] at h; simp at h
        | some x =>
          rw [hg, Option.map_some'] at h
          have h1 : (some (0 + i0, x) : Option (ℕ × InventoryItem)) = some (i, it) :=
            congrArg Prod.fst h
          simp only [Option.some_inj, Prod.mk.injEq] at h1
          obtain ⟨hi, hx⟩ := h1
          have hii : i = i0 := by omega
          rw [hii, hg, hx]
      · rw [if_neg hms] at h; simp at h
    · rw [if_neg h0] at h
      simp only at h
      split at h <;> simp at h

lemma weight_table_sane :
    ∀ p ∈ WEIGHT_TO_G, p.1 ≠ "" ∧ p.2 ≠ 0 := by decide

lemma volume_table_sane :
    ∀ p ∈ VOLUME_TO_ML, p.1 ≠ "" ∧ p.2 ≠ 0 := by decide

lemma volume_not_weight :
    ∀ p ∈ VOLUME_TO_ML, WEIGHT_TO_G.lookup p.1 = none := by decide

lemma lookupFam_not_falsy {t : List (String × ℚ)} {u : Option String} {f : ℚ}
    (hsane : ∀ p ∈ t, p.1 ≠ "" ∧ p.2 ≠ 0) (h : lookupFam t u = some f) :
    pyFalsy u = false ∧ f ≠ 0 := by
  match u with
  | none => simp [lookupFam] at h
  | some s =>
    simp only [lookupFam] at h
    have hmem := lookup_mem h
    have := hsane _ hmem
    refine ⟨?_, this.2⟩
    simp [pyFalsy, this.1]

/-! ## Claim theorems -/

/-- C1: the spec claims that in `'<number> <unit-token> <rest>'` inputs whose
unit token is unknown, `parse_ingredient` keeps the token in the name and
defaults the unit to `pcs`. The code's guard for this case compares
`normalize_unit(unit_str)` against `None`, but `normalize_unit` passes
non-empty unknown tokens through instead of returning `None`, so the guard
never fires: on `"2 Chicken Breasts"` the unknown token `Chicken` becomes
the unit (lower-cased) and the name is just `Breasts`. -/
theorem C1_unknown_unit_token_divergence :
    parse_ingredient "2 Chicken Breasts" = (2, "chicken", "Breasts")
    ∧ normalize_unit (some "Chicken") = some "chicken"
    ∧ UNIT_MAPPINGS.lookup "chicken" = none := by
  refine ⟨by decide, by decide, by decide⟩

/-- C5: `convert_unit` returns `None` whenever the normalized keys differ and
the two keys are not both weight keys nor both volume keys (hence count
units, cross-family pairs, and unknown units do not convert), and for
same-family pairs it returns `qty * baseFactor[from] / baseFactor[to]`. -/
theorem C5_convert_unit_families (q : ℚ) (u1 u2 : String) :
    (normalize_unit (some u1) ≠ normalize_unit (some u2) →
      ¬ ((lookupFam WEIGHT_TO_G (normalize_unit (some u1))).isSome
          ∧ (lookupFam WEIGHT_TO_G (normalize_unit (some u2))).isSome) →
      ¬ ((lookupFam VOLUME_TO_ML (normalize_unit (some u1))).isSome
          ∧ (lookupFam VOLUME_TO_ML (normalize_unit (some u2))).isSome) →
      convert_unit q (some u1) (some u2) = none)
    ∧ (∀ f1 f2, lookupFam WEIGHT_TO_G (normalize_unit (some u1)) = some f1 →
        lookupFam WEIGHT_TO_G (normalize_unit (some u2)) = some f2 →
        convert_unit q (some u1) (some u2) = some (q * f1 / f2))
    ∧ (∀ f1 f2, lookupFam VOLUME_TO_ML (normalize_unit (some u1)) = some f1 →
        lookupFam VOLUME_TO_ML (normalize_unit (some u2)) = some f2 →
        convert_unit q (some u1) (some u2) = some (q * f1 / f2))
    ∧ convert_unit q (some "clove") (some "can") = none
    ∧ convert_unit q (some "pcs") (some "lb") = none := by
  refine ⟨?_, ?_, ?_, ?_, ?_⟩
  · intro hne hw hv
    simp only [convert_unit]
    by_cases hf : pyFalsy (normalize_unit (some u1)) ∨ pyFalsy (normalize_unit (some u2))
    · rw [if_pos hf]
    · rw [if_neg hf, if_neg hne]
      cases hw1 : lookupFam WEIGHT_TO_G (normalize_unit (some u1)) with
      | some f1 =>
        cases hw2 : lookupFam WEIGHT_TO_G (normalize_unit (some u2)) with
        | some f2 => exact absurd ⟨by rw [hw1]; rfl, by rw [hw2]; rfl⟩ hw
        | none =>
          cases hv1 : lookupFam VOLUME_TO_ML (normalize_unit (some u1)) with
          | some g1 =>
            cases hv2 : lookupFam VOLUME_TO_ML (normalize_unit (some u2)) with
            | some g2 => exact absurd ⟨by rw [hv1]; rfl, by rw [hv2]; rfl⟩ hv
            | none => rfl
          | none => cases lookupFam VOLUME_TO_ML (normalize_unit (some u2)) <;> rfl
      | none =>
        cases hv1 : lookupFam VOLUME_TO_ML (normalize_unit (some u1)) with
        | some g1 =>
          cases hv2 : lookupFam VOLUME_TO_ML (normalize_unit (some u2)) with
          | some g2 => exact absurd ⟨by rw [hv1]; rfl, by rw [hv2]; rfl⟩ hv
          | none => rfl
        | none => cases lookupFam VOLUME_TO_ML (normalize_unit (some u2)) <;> rfl
  · intro f1 f2 h1 h2
    have hnf1 := lookupFam_not_falsy weight_table_sane h1
    have hnf2 := lookupFam_not_falsy weight_table_sane h2
    simp only [convert_unit]
    rw [if_neg (by simp [hnf1.1, hnf2.1])]
    by_cases heq : normalize_unit (some u1) = normalize_unit (some u2)
    · rw [if_pos heq]
      rw [heq] at h1
      rw [h1] at h2
      have hf : f1 = f2 := by simpa using h2
      subst hf
      rw [mul_div_assoc, div_self hnf1.2, mul_one]
    · rw [if_neg heq, h1, h2]
  · intro f1 f2 h1 h2
    have hnf1 := lookupFam_not_falsy volume_table_sane h1
    have hnf2 := lookupFam_not_falsy volume_table_sane h2
    simp only [convert_unit]
    rw [if_neg (by simp [hnf1.1, hnf2.1])]
    by_cases heq : normalize_unit (some u1) = normalize_unit (some u2)
    · rw [if_pos heq]
      rw [heq] at h1
      rw [h1] at h2
      have hf : f1 = f2 := by simpa using h2
      subst hf
      rw [mul_div_assoc, div_self hnf1.2, mul_one]
    · rw [if_neg heq]
      have hwn1 : lookupFam WEIGHT_TO_G (normalize_unit (some u1)) = none := by
        cases hn : normalize_unit (some u1) with
        | none => simp [lookupFam]
        | some s =>
          rw [hn] at h1
          simp only [lookupFam] at h1 ⊢
          exact volume_not_weight _ (lookup_mem h1)
      rw [hwn1]
      cases hw2 : lookupFam WEIGHT_TO_G (normalize_unit (some u2)) <;>
        rw [h1, h2]
  · rfl
  · rfl

/-- C5 witness: the theorem applied at `q = 3`, `kg → g` (same weight
family, factors 1000 and 1), with its lookup hypotheses discharged
concretely. -/
theorem C5_witness :
    lookupFam WEIGHT_TO_G (normalize_unit (some "kg")) = some 1000
    ∧ lookupFam WEIGHT_TO_G (normalize_unit (some "g")) = some 1
    ∧ convert_unit 3 (some "kg") (some "g") = some (3 * 1000 / 1) :=
  ⟨by decide, by decide,
    (C5_convert_unit_families 3 "kg" "g").2.1 1000 1 (by decide) (by decide)⟩

/-- C6: `find_best_inventory_match` computes each record's similarity against
the normalized ingredient name in list order, keeps the first record
attaining the maximum score, and returns `(some best, bestScore)` iff
`bestScore ≥ min_score`, else `(none, 0)` (in particular `(none, 0)` on the
empty list) — stated as equality with the spec-text selection function, for
every positive threshold (the default is `0.45`). -/
theorem C6_findBestMatch_eq_spec (items : List InventoryItem)
    (ingredient_name : String) (min_score : ℚ) (hpos : 0 < min_score) :
    find_best_inventory_match items ingredient_name min_score
      = findBestMatchSpec items ingredient_name min_score := by
  simp only [find_best_inventory_match, find_best_core, findBestMatchSpec]
  cases hm : firstMaxIdx
      (items.map fun it => similarity it.item_name (norm_text ingredient_name)) with
  | none =>
    rw [fbLoop_of_none _ hm]
    simp [not_le.mpr hpos]
  | some p =>
    rcases p with ⟨i0, m⟩
    rw [fbLoop_of_some (norm_text ingredient_name) items i0 m hm none 0 0]
    by_cases h0 : (0 : ℚ) < m
    · rw [if_pos h0]
      dsimp only
      by_cases hms : min_score ≤ m
      · rw [if_pos hms, if_pos hms]
        cases items[i0]? <;> simp
      · rw [if_neg hms, if_neg hms]
        simp
    · rw [if_neg h0]
      dsimp only
      have h2 : ¬ min_score ≤ m := by
        push_neg at h0 ⊢
        linarith
      rw [if_neg (not_le.mpr hpos), if_neg h2]
      rfl

/-- C6 witness: the refinement applied at the default threshold on a
one-record inventory, together with the concrete selections (exact match
scores `1`; the empty inventory yields `(none, 0)`). -/
theorem C6_witness :
    (0 : ℚ) < 45 / 100
    ∧ find_best_inventory_match [⟨"milk", 5, some "l"⟩] "milk" (45 / 100)
        = findBestMatchSpec [⟨"milk", 5, some "l"⟩] "milk" (45 / 100)
    ∧ find_best_inventory_match [⟨"milk", 5, some "l"⟩] "milk" (45 / 100)
        = (some ⟨"milk", 5, some "l"⟩, 1)
    ∧ find_best_inventory_match [] "chicken" (45 / 100) = (none, 0) :=
  ⟨by decide, C6_findBestMatch_eq_spec [⟨"milk", 5, some "l"⟩] "milk" (45 / 100) (by decide),
    by decide, by decide⟩

/-- C7 counterexample: `norm_text` does not collapse inner whitespace — on
`"a  b"` the two consecutive spaces survive, refuting the claim that the
result never has two consecutive whitespace characters. -/
theorem C7_counterexample :
    norm_text "a  b" = "a  b"
    ∧ (((norm_text "a  b").toList.zip (norm_text "a  b").toList.tail).all
        (fun p => !(pyWs p.1 && pyWs p.2))) = false :=
  ⟨by decide, by decide⟩

/-- C7 amended: `norm_text` lower-cases, replaces every character that is
not a lower-case letter, digit, or whitespace with a space, and trims
leading and trailing whitespace — but does NOT collapse inner whitespace.
Formally: every output character is in `[a-z0-9]` or whitespace, and the
first and last output characters are never whitespace. -/
theorem C7_amended (s : String) :
    (∀ c ∈ (norm_text s).toList, ('a' ≤ c ∧ c ≤ 'z') ∨ c.isDigit = true ∨ pyWs c = true)
    ∧ (∀ c, (norm_text s).toList.head? = some c → pyWs c = false)
    ∧ (∀ c, (norm_text s).toList.getLast? = some c → pyWs c = false) := by
  have hrep : (norm_text s).toList
      = pyStrip ((s.toList.map pyLower).map
          (fun c => if (('a' ≤ c ∧ c ≤ 'z') ∨ c.isDigit ∨ pyWs c) then c else ' ')) := rfl
  refine ⟨?_, ?_, ?_⟩
  · intro c hc
    rw [hrep] at hc
    have hc2 := mem_pyStrip hc
    rw [List.mem_map] at hc2
    obtain ⟨c0, _, hc0⟩ := hc2
    by_cases hcond : (('a' ≤ c0 ∧ c0 ≤ 'z') ∨ c0.isDigit ∨ pyWs c0)
    · rw [if_pos hcond] at hc0
      subst hc0
      rcases hcond with h | h | h
      · exact Or.inl h
      · exact Or.inr (Or.inl h)
      · exact Or.inr (Or.inr h)
    · rw [if_neg hcond] at hc0
      subst hc0
      exact Or.inr (Or.inr (by decide))
  · intro c hc
    rw [hrep] at hc
    exact head?_pyStrip hc
  · intro c hc
    rw [hrep] at hc
    exact getLast?_pyStrip hc

/-- C7 witness: the amended theorem applied at the concrete counterexample
input, with its conclusions evaluated there. -/
theorem C7_amended_witness :
    (∀ c ∈ (norm_text "a  b").toList,
      ('a' ≤ c ∧ c ≤ 'z') ∨ c.isDigit = true ∨ pyWs c = true)
    ∧ (∀ c, (norm_text "a  b").toList.head? = some c → pyWs c = false)
    ∧ (∀ c, (norm_text "a  b").toList.getLast? = some c → pyWs c = false) :=
  C7_amended "a  b"

/-- C8: `parse_ingredient` is total and deterministic: it is a function (so
identical inputs give identical outputs), and the problematic inputs the
spec lists — empty string, fraction with zero denominator, fraction with too
many parts, no digits at all — all produce a `(quantity, unit, name)` triple
with the malformed quantity defaulting to `1.0`, never an error. -/
theorem C8_parse_total_deterministic :
    (∀ s t : String, s = t → parse_ingredient s = parse_ingredient t)
    ∧ parse_ingredient "" = (1, "pcs", "")
    ∧ parse_ingredient "1/0 cup sugar" = (1, "cup", "sugar")
    ∧ parse_ingredient "1/2/3 x" = (1, "pcs", "x")
    ∧ parse_ingredient "no digits here" = (1, "pcs", "no digits here") :=
  ⟨fun _ _ h => by rw [h], by decide, by decide, by decide, by decide⟩

/-- C8 witness: determinism applied at a concrete input. -/
theorem C8_witness : parse_ingredient "Salt" = parse_ingredient "Salt" :=
  C8_parse_total_deterministic.1 "Salt" "Salt" rfl

lemma convert_unit_eq_none_iff (q : ℚ) (u1 u2 : Option String) :
    convert_unit q u1 u2 = none
      ↔ familyFallback (normalize_unit u1) (normalize_unit u2) := by
  unfold convert_unit familyFallback
  by_cases hf : pyFalsy (normalize_unit u1) ∨ pyFalsy (normalize_unit u2)
  · rw [if_pos hf]
    simp only [true_iff]
    rcases hf with h | h
    · exact Or.inl h
    · exact Or.inr (Or.inl h)
  · rw [if_neg hf]
    push_neg at hf
    obtain ⟨hf1', hf2'⟩ := hf
    have hf1 : pyFalsy (normalize_unit u1) = false := by simpa using hf1'
    have hf2 : pyFalsy (normalize_unit u2) = false := by simpa using hf2'
    by_cases heq : normalize_unit u1 = normalize_unit u2
    · rw [if_pos heq]
      simp [hf1, hf2, heq]
    · rw [if_neg heq]
      cases hw1 : lookupFam WEIGHT_TO_G (normalize_unit u1) with
      | some f1 =>
        cases hw2 : lookupFam WEIGHT_TO_G (normalize_unit u2) with
        | some f2 => simp [hf1, hf2, hw1, hw2]
        | none =>
          cases hv1 : lookupFam VOLUME_TO_ML (normalize_unit u1) with
          | some g1 =>
            cases hv2 : lookupFam VOLUME_TO_ML (normalize_unit u2) with
            | some g2 => simp [hf1, hf2, hv1, hv2]
            | none => simp [hf1, hf2, heq, hw1, hw2, hv1, hv2]
          | none =>
            cases hv2 : lookupFam VOLUME_TO_ML (normalize_unit u2) <;>
              simp [hf1, hf2, heq, hw1, hw2, hv1, hv2]
      | none =>
        cases hv1 : lookupFam VOLUME_TO_ML (normalize_unit u1) with
        | some g1 =>
          cases hv2 : lookupFam VOLUME_TO_ML (normalize_unit u2) with
          | some g2 => simp [hf1, hf2, hv1, hv2]
          | none => simp [hf1, hf2, heq, hw1, hv1, hv2]
        | none =>
          cases hv2 : lookupFam VOLUME_TO_ML (normalize_unit u2) <;>
            simp [hf1, hf2, heq, hw1, hv1, hv2]

/-- Exhaustive description of one deduction-loop iteration: skip on empty
text, skip on no match, converted deduction, or fallback deduction. -/
lemma cookStep_eq (s : Option ℤ) (inv : List InventoryItem) (r : String) :
    (r = "" ∧ cookStep s inv r = (inv, none))
    ∨ (r ≠ "" ∧ (∃ sc, find_best_core inv (parse_ingredient r).2.2 (45 / 100) = (none, sc))
        ∧ cookStep s inv r = (inv, none))
    ∨ (r ≠ "" ∧ ∃ i it sc cq,
        find_best_core inv (parse_ingredient r).2.2 (45 / 100) = (some (i, it), sc)
        ∧ convert_unit (parse_ingredient r).1 (some (parse_ingredient r).2.1)
            (normalize_unit it.unit) = some cq
        ∧ cookStep s inv r =
            (inv.set i { it with quantity := max 0 (it.quantity - cq * effServings s) },
             some ⟨cq * effServings s, false, max 0 (it.quantity - cq * effServings s)⟩))
    ∨ (r ≠ "" ∧ ∃ i it sc,
        find_best_core inv (parse_ingredient r).2.2 (45 / 100) = (some (i, it), sc)
        ∧ convert_unit (parse_ingredient r).1 (some (parse_ingredient r).2.1)
            (normalize_unit it.unit) = none
        ∧ cookStep s inv r =
            (inv.set i { it with quantity := max 0 (it.quantity - effServings s) },
             some ⟨effServings s, true, max 0 (it.quantity - effServings s)⟩)) := by
  by_cases hr : r = ""
  · exact Or.inl ⟨hr, by simp [cookStep, hr]⟩
  · obtain ⟨ob, sc, hfb⟩ :
        ∃ ob sc, find_best_core inv (parse_ingredient r).2.2 (45 / 100) = (ob, sc) :=
      ⟨_, _, rfl⟩
    cases ob with
    | none =>
      refine Or.inr (Or.inl ⟨hr, ⟨sc, hfb⟩, ?_⟩)
      simp only [cookStep, if_neg hr, hfb]
    | some p =>
      rcases p with ⟨i, it⟩
      obtain ⟨ocv, hcv⟩ :
          ∃ ocv, convert_unit (parse_ingredient r).1 (some (parse_ingredient r).2.1)
            (normalize_unit it.unit) = ocv :=
        ⟨_, rfl⟩
      cases ocv with
      | some cq =>
        refine Or.inr (Or.inr (Or.inl ⟨hr, i, it, sc, cq, hfb, hcv, ?_⟩))
        simp only [cookStep, if_neg hr, hfb, hcv]
      | none =>
        refine Or.inr (Or.inr (Or.inr ⟨hr, i, it, sc, hfb, hcv, ?_⟩))
        simp only [cookStep, if_neg hr, hfb, hcv]

lemma cookStep_congr (s1 s2 : Option ℤ) (h : effServings s1 = effServings s2) :
    cookStep s1 = cookStep s2 := by
  funext inv r
  simp only [cookStep, h]

lemma runDeduction_congr (s1 s2 : Option ℤ) (h : effServings s1 = effServings s2)
    (reqs : List String) (inv : List InventoryItem) :
    runDeduction s1 reqs inv = runDeduction s2 reqs inv := by
  simp only [runDeduction, cookStep_congr s1 s2 h]

/-- C2 counterexample: a deduction call with `servings = 0` (the claim calls
this an invalid call that must fail with no mutation) succeeds and mutates
the matched record — the code treats falsy servings as `1`. -/
theorem C2_counterexample :
    mark_recipe_cooked (some 0) (some ["2 lbs milk"]) [⟨"milk", 2, some "lb"⟩]
      = .ok ([⟨"milk", 0, some "lb"⟩], [some ⟨2, false, 0⟩])
    ∧ ([⟨"milk", 0, some "lb"⟩] : List InventoryItem) ≠ [⟨"milk", 2, some "lb"⟩] := by
  constructor
  · show Except.ok (runDeduction (some 0) ["2 lbs milk"] [⟨"milk", 2, some "lb"⟩]) = _
    rw [show runDeduction (some 0) ["2 lbs milk"] [⟨"milk", 2, some "lb"⟩]
        = ([⟨"milk", 0, some "lb"⟩], [some ⟨2, false, 0⟩]) from by decide]
  · decide

/-- C2 amended: the deduction call never fails for any servings value or
requirement list: servings `0` and `None` behave exactly like `1` (falsy
servings default to one serving), an absent/null requirement list merely
yields no deductions, and there is no call-level validation or all-or-nothing
abort. -/
theorem C2_amended (servings : Option ℤ) (mi : Option (List String))
    (inv : List InventoryItem) :
    (∃ res, mark_recipe_cooked servings mi inv = .ok res)
    ∧ mark_recipe_cooked (some 0) mi inv = mark_recipe_cooked (some 1) mi inv
    ∧ mark_recipe_cooked none mi inv = mark_recipe_cooked (some 1) mi inv
    ∧ mark_recipe_cooked servings none inv = .ok (inv, []) := by
  refine ⟨?_, ?_, ?_, rfl⟩
  · cases mi with
    | none => exact ⟨(inv, []), rfl⟩
    | some reqs => exact ⟨runDeduction servings reqs inv, rfl⟩
  · cases mi with
    | none => rfl
    | some reqs =>
      simp only [mark_recipe_cooked]
      rw [runDeduction_congr (some 0) (some 1) (by decide) reqs inv]
  · cases mi with
    | none => rfl
    | some reqs =>
      simp only [mark_recipe_cooked]
      rw [runDeduction_congr none (some 1) (by decide) reqs inv]

/-- C3 counterexample: a requirement whose parsed unit is the unrecognized
token `widget`, matched against a record whose unit is the same token: the
claim says an unrecognized unit forces `usedFallback = true`, but the code
converts by identity and deducts the parsed quantity with
`usedFallback = false`. -/
theorem C3_counterexample :
    (runDeduction (some 1) ["2 widget milk"] [⟨"milk", 5, some "widget"⟩]).2
      = [some ⟨2, false, 3⟩]
    ∧ parse_ingredient "2 widget milk" = (2, "widget", "milk")
    ∧ UNIT_MAPPINGS.lookup "widget" = none :=
  ⟨by decide, by decide, by decide⟩

/-- C3 amended: for every requirement that produces an outcome, the matched
record exists and `usedFallback = true` holds exactly under the
`familyFallback` condition on the two normalized unit keys (either key falsy,
or different keys not in a common weight/volume family) — equal unrecognized
keys do NOT trigger the fallback; and a fallback outcome always applies
`1.0 *` the effective servings. -/
theorem C3_amended (servings : Option ℤ) (inv inv' : List InventoryItem)
    (r : String) (o : DeductionOutcome)
    (h : cookStep servings inv r = (inv', some o)) :
    ∃ i it sc,
      find_best_core inv (parse_ingredient r).2.2 (45 / 100) = (some (i, it), sc)
      ∧ (o.usedFallback = true ↔
          familyFallback (normalize_unit (some (parse_ingredient r).2.1))
            (normalize_unit (normalize_unit it.unit)))
      ∧ (o.usedFallback = true → o.appliedAmount = 1 * effServings servings) := by
  rcases cookStep_eq servings inv r with ⟨_, hcs⟩ | ⟨_, _, hcs⟩ |
      ⟨_, i, it, sc, cq, hfb, hcv, hcs⟩ | ⟨_, i, it, sc, hfb, hcv, hcs⟩
  · rw [hcs] at h
    simp at h
  · rw [hcs] at h
    simp at h
  · rw [hcs] at h
    have ho := congrArg Prod.snd h
    simp only [Option.some_inj] at ho
    refine ⟨i, it, sc, hfb, ?_, ?_⟩
    · rw [← ho]
      constructor
      · intro hf
        exact absurd hf (by simp)
      · intro hfam
        have hnone := (convert_unit_eq_none_iff (parse_ingredient r).1
            (some (parse_ingredient r).2.1) (normalize_unit it.unit)).mpr hfam
        rw [hnone] at hcv
        exact Option.noConfusion hcv
    · rw [← ho]
      intro hf
      exact absurd hf (by simp)
  · rw [hcs] at h
    have ho := congrArg Prod.snd h
    simp only [Option.some_inj] at ho
    refine ⟨i, it, sc, hfb, ?_, ?_⟩
    · rw [← ho]
      constructor
      · intro _
        exact (convert_unit_eq_none_iff _ _ _).mp hcv
      · intro _
        rfl
    · rw [← ho]
      intro _
      exact (one_mul _).symm

/-- C3 witness: the amended theorem applied to a concrete converted
deduction (`2 g` of milk against a `kg` record: same weight family, no
fallback, deduction `2/1000` of a kilogram per serving). -/
theorem C3_witness :
    cookStep (some 1) [⟨"milk", 5, some "kg"⟩] "2 g milk"
      = ([⟨"milk", 2499 / 500, some "kg"⟩], some ⟨1 / 500, false, 2499 / 500⟩)
    ∧ ∃ i it sc,
      find_best_core [⟨"milk", 5, some "kg"⟩]
          (parse_ingredient "2 g milk").2.2 (45 / 100) = (some (i, it), sc)
      ∧ ((⟨1 / 500, false, 2499 / 500⟩ : DeductionOutcome).usedFallback = true ↔
          familyFallback (normalize_unit (some (parse_ingredient "2 g milk").2.1))
            (normalize_unit (normalize_unit it.unit)))
      ∧ ((⟨1 / 500, false, 2499 / 500⟩ : DeductionOutcome).usedFallback = true →
          (⟨1 / 500, false, 2499 / 500⟩ : DeductionOutcome).appliedAmount
            = 1 * effServings (some 1)) :=
  ⟨by decide,
   C3_amended (some 1) [⟨"milk", 5, some "kg"⟩] [⟨"milk", 2499 / 500, some "kg"⟩]
     "2 g milk" ⟨1 / 500, false, 2499 / 500⟩ (by decide)⟩

/-- C10 counterexample: a non-empty unit string made of whitespace
normalizes to the empty (falsy) key, so `convert_unit` rejects the pair even
though both sides normalize identically — refuting the claim for every pair
of non-empty unit strings. -/
theorem C10_counterexample :
    normalize_unit (some " ") = normalize_unit (some " ")
    ∧ " " ≠ ""
    ∧ convert_unit 1 (some " ") (some " ") = none :=
  ⟨rfl, by decide, by decide⟩

/-- C10 amended: whenever two unit strings normalize to the same non-falsy
key — recognized by a table or not — `convert_unit` is the identity on the
quantity; consequently a matched requirement whose parsed unit normalizes to
the matched record's (non-falsy) normalized unit deducts
`parsedQuantity * servings` directly with no fallback. -/
theorem C10_amended :
    (∀ (q : ℚ) (u1 u2 : Option String),
      normalize_unit u1 = normalize_unit u2 →
      pyFalsy (normalize_unit u1) = false →
      convert_unit q u1 u2 = some q)
    ∧ (∀ (servings : Option ℤ) (inv : List InventoryItem) (r : String)
        (i : ℕ) (it : InventoryItem) (sc : ℚ),
        r ≠ "" →
        find_best_core inv (parse_ingredient r).2.2 (45 / 100) = (some (i, it), sc) →
        normalize_unit (some (parse_ingredient r).2.1) = normalize_unit it.unit →
        pyFalsy (normalize_unit (some (parse_ingredient r).2.1)) = false →
        (cookStep servings inv r).2
          = some ⟨(parse_ingredient r).1 * effServings servings, false,
              max 0 (it.quantity - (parse_ingredient r).1 * effServings servings)⟩) := by
  have part1 : ∀ (q : ℚ) (u1 u2 : Option String),
      normalize_unit u1 = normalize_unit u2 →
      pyFalsy (normalize_unit u1) = false →
      convert_unit q u1 u2 = some q := by
    intro q u1 u2 heq hf
    unfold convert_unit
    rw [if_neg (by rw [← heq]; simp [hf]), if_pos heq]
  refine ⟨part1, ?_⟩
  intro servings inv r i it sc hr hfb hn hf
  have htok : ∃ tok, normalize_unit it.unit = some tok ∧ tok ≠ "" := by
    cases hk : normalize_unit it.unit with
    | none =>
      rw [hk] at hn
      rw [hn] at hf
      simp [pyFalsy] at hf
    | some tok =>
      refine ⟨tok, rfl, ?_⟩
      intro htt
      rw [hk, htt] at hn
      rw [hn] at hf
      simp [pyFalsy] at hf
  obtain ⟨tok, htok1, htok2⟩ := htok
  have hfix : normalize_unit (normalize_unit it.unit) = normalize_unit it.unit := by
    rw [htok1]
    exact normalize_fix htok1 htok2
  have hcv : convert_unit (parse_ingredient r).1 (some (parse_ingredient r).2.1)
      (normalize_unit it.unit) = some (parse_ingredient r).1 := by
    apply part1
    · rw [hfix]
      exact hn
    · exact hf
  simp only [cookStep, if_neg hr, hfb, hcv]

/-- C10 witness: identity conversion on the unrecognized token `widget`, and
the workflow consequence at a concrete match with equal unrecognized units. -/
theorem C10_witness :
    convert_unit 2 (some "widget") (some "widget") = some 2
    ∧ (cookStep (some 1) [⟨"milk", 5, some "widget"⟩] "2 widget milk").2
        = some ⟨(parse_ingredient "2 widget milk").1 * effServings (some 1), false,
            max 0 ((5 : ℚ) - (parse_ingredient "2 widget milk").1 * effServings (some 1))⟩ :=
  ⟨C10_amended.1 2 (some "widget") (some "widget") rfl (by decide),
   C10_amended.2 (some 1) [⟨"milk", 5, some "widget"⟩] "2 widget milk"
     0 ⟨"milk", 5, some "widget"⟩ 1 (by decide) (by decide) (by decide) (by decide)⟩

lemma cookStep_nonneg (s : Option ℤ) (inv : List InventoryItem) (r : String)
    (h : ∀ it ∈ inv, 0 ≤ it.quantity) :
    ∀ it ∈ (cookStep s inv r).1, 0 ≤ it.quantity := by
  rcases cookStep_eq s inv r with ⟨_, hcs⟩ | ⟨_, _, hcs⟩ |
      ⟨_, i, it0, sc, cq, hfb, hcv, hcs⟩ | ⟨_, i, it0, sc, hfb, hcv, hcs⟩
  · rw [hcs]; exact h
  · rw [hcs]; exact h
  · rw [hcs]
    intro x hx
    rcases List.mem_or_eq_of_mem_set hx with hmem | hset
    · exact h x hmem
    · rw [hset]
      exact le_max_left 0 _
  · rw [hcs]
    intro x hx
    rcases List.mem_or_eq_of_mem_set hx with hmem | hset
    · exact h x hmem
    · rw [hset]
      exact le_max_left 0 _

lemma cookStep_out_nonneg (s : Option ℤ) (inv : List InventoryItem) (r : String)
    (o : DeductionOutcome) (h : (cookStep s inv r).2 = some o) :
    0 ≤ o.resultingQuantity := by
  rcases cookStep_eq s inv r with ⟨_, hcs⟩ | ⟨_, _, hcs⟩ |
      ⟨_, i, it0, sc, cq, hfb, hcv, hcs⟩ | ⟨_, i, it0, sc, hfb, hcv, hcs⟩
  · rw [hcs] at h; simp at h
  · rw [hcs] at h; simp at h
  · rw [hcs] at h
    simp only [Option.some_inj] at h
    rw [← h]
    exact le_max_left 0 _
  · rw [hcs] at h
    simp only [Option.some_inj] at h
    rw [← h]
    exact le_max_left 0 _

lemma runDeduction_invariants (s : Option ℤ) :
    ∀ (reqs : List String) (inv : List InventoryItem)
      (outs : List (Option DeductionOutcome)),
    (∀ it ∈ inv, 0 ≤ it.quantity) →
    (∀ oo ∈ outs, ∀ o, oo = some o → 0 ≤ o.resultingQuantity) →
    (∀ it ∈ (reqs.foldl
        (fun acc r =>
          let st := cookStep s acc.1 r
          (st.1, acc.2 ++ [st.2])) (inv, outs)).1, 0 ≤ it.quantity)
    ∧ (∀ oo ∈ (reqs.foldl
        (fun acc r =>
          let st := cookStep s acc.1 r
          (st.1, acc.2 ++ [st.2])) (inv, outs)).2,
        ∀ o, oo = some o → 0 ≤ o.resultingQuantity) := by
  intro reqs
  induction reqs with
  | nil =>
    intro inv outs h1 h2
    exact ⟨h1, h2⟩
  | cons r rs ih =>
    intro inv outs h1 h2
    simp only [List.foldl_cons]
    apply ih
    · exact cookStep_nonneg s inv r h1
    · intro oo hoo o hsome
      rcases List.mem_append.mp hoo with hold | hnew
      · exact h2 oo hold o hsome
      · rw [List.mem_singleton] at hnew
        subst hnew
        exact cookStep_out_nonneg s inv r o hsome

/-- C4: starting from an inventory with non-negative quantities, the whole
deduction workflow leaves every inventory quantity non-negative, and every
reported resulting quantity is non-negative (the `max 0` clamp). -/
theorem C4_nonneg (servings : Option ℤ) (reqs : List String)
    (inv : List InventoryItem) (h : ∀ it ∈ inv, 0 ≤ it.quantity) :
    (∀ it ∈ (runDeduction servings reqs inv).1, 0 ≤ it.quantity)
    ∧ (∀ oo ∈ (runDeduction servings reqs inv).2,
        ∀ o, oo = some o → 0 ≤ o.resultingQuantity) := by
  have hmain := runDeduction_invariants servings reqs inv [] h (by simp)
  exact hmain

/-- C4 witness: the spec's end-to-end fallback scenario (`1 cup rice`
against a `kg` record, two servings) — the call runs and both conclusions
hold there; the clamped record ends at exactly `0`. -/
theorem C4_witness :
    ((∀ it ∈ (runDeduction (some 2) ["1 cup rice"] [⟨"Rice", 1, some "kg"⟩]).1,
        0 ≤ it.quantity)
      ∧ (∀ oo ∈ (runDeduction (some 2) ["1 cup rice"] [⟨"Rice", 1, some "kg"⟩]).2,
          ∀ o, oo = some o → 0 ≤ o.resultingQuantity))
    ∧ runDeduction (some 2) ["1 cup rice"] [⟨"Rice", 1, some "kg"⟩]
        = ([⟨"Rice", 0, some "kg"⟩], [some ⟨2, true, 0⟩]) :=
  ⟨C4_nonneg (some 2) ["1 cup rice"] [⟨"Rice", 1, some "kg"⟩] (by decide), by decide⟩

lemma set_quantity_frame (inv : List InventoryItem) (i : ℕ) (it0 : InventoryItem)
    (qv : ℚ) (hmemi : inv[i]? = some it0) :
    ((inv.set i { it0 with quantity := qv }).length = inv.length)
    ∧ (∀ k : ℕ, ((inv.set i { it0 with quantity := qv })[k]?).map InventoryItem.item_name
        = (inv[k]?).map InventoryItem.item_name)
    ∧ (∀ k : ℕ, ((inv.set i { it0 with quantity := qv })[k]?).map InventoryItem.unit
        = (inv[k]?).map InventoryItem.unit)
    ∧ ∀ k : ℕ, k ≠ i → (inv.set i { it0 with quantity := qv })[k]? = inv[k]? := by
  have hlen : i < inv.length := by
    by_contra hge
    rw [List.getElem?_eq_none (by omega)] at hmemi
    exact Option.noConfusion hmemi
  refine ⟨List.length_set inv i _, ?_, ?_, ?_⟩
  · intro k
    rw [List.getElem?_set]
    by_cases hik : i = k
    · subst hik
      rw [if_pos rfl, if_pos hlen, hmemi]
      rfl
    · rw [if_neg hik]
  · intro k
    rw [List.getElem?_set]
    by_cases hik : i = k
    · subst hik
      rw [if_pos rfl, if_pos hlen, hmemi]
      rfl
    · rw [if_neg hik]
  · intro k hk
    rw [List.getElem?_set, if_neg (fun he => hk he.symm)]

lemma cookStep_frame (s : Option ℤ) (inv : List InventoryItem) (r : String) :
    (cookStep s inv r).1.length = inv.length
    ∧ (∀ k : ℕ, ((cookStep s inv r).1[k]?).map InventoryItem.item_name
        = (inv[k]?).map InventoryItem.item_name)
    ∧ (∀ k : ℕ, ((cookStep s inv r).1[k]?).map InventoryItem.unit
        = (inv[k]?).map InventoryItem.unit)
    ∧ ∃ j : ℕ, ∀ k : ℕ, k ≠ j → (cookStep s inv r).1[k]? = inv[k]? := by
  rcases cookStep_eq s inv r with ⟨_, hcs⟩ | ⟨_, _, hcs⟩ |
      ⟨_, i, it0, sc, cq, hfb, hcv, hcs⟩ | ⟨_, i, it0, sc, hfb, hcv, hcs⟩
  · rw [hcs]
    exact ⟨rfl, fun k => rfl, fun k => rfl, 0, fun k _ => rfl⟩
  · rw [hcs]
    exact ⟨rfl, fun k => rfl, fun k => rfl, 0, fun k _ => rfl⟩
  · rw [hcs]
    obtain ⟨h1, h2, h3, h4⟩ :=
      set_quantity_frame inv i it0 _ (find_best_core_mem hfb)
    exact ⟨h1, h2, h3, i, h4⟩
  · rw [hcs]
    obtain ⟨h1, h2, h3, h4⟩ :=
      set_quantity_frame inv i it0 _ (find_best_core_mem hfb)
    exact ⟨h1, h2, h3, i, h4⟩

lemma runDeduction_fst (servings : Option ℤ) :
    ∀ (rs : List String) (inv0 : List InventoryItem)
      (outs : List (Option DeductionOutcome)),
    (rs.foldl (fun acc r =>
        let st := cookStep servings acc.1 r
        (st.1, acc.2 ++ [st.2])) (inv0, outs)).1
      = rs.foldl (fun inv1 r => (cookStep servings inv1 r).1) inv0 := by
  intro rs
  induction rs with
  | nil => intro inv0 outs; rfl
  | cons r rs ih =>
    intro inv0 outs
    simp only [List.foldl_cons]
    exact ih _ _

lemma runDeduction_frame (servings : Option ℤ) (reqs : List String)
    (inv : List InventoryItem) :
    (runDeduction servings reqs inv).1.length = inv.length
    ∧ (∀ k : ℕ, ((runDeduction servings reqs inv).1[k]?).map InventoryItem.item_name
        = (inv[k]?).map InventoryItem.item_name)
    ∧ (∀ k : ℕ, ((runDeduction servings reqs inv).1[k]?).map InventoryItem.unit
        = (inv[k]?).map InventoryItem.unit) := by
  have hmain : ∀ (rs : List String) (inv0 : List InventoryItem),
      (rs.foldl (fun inv1 r => (cookStep servings inv1 r).1) inv0).length = inv0.length
      ∧ (∀ k : ℕ, ((rs.foldl (fun inv1 r => (cookStep servings inv1 r).1) inv0)[k]?).map
            InventoryItem.item_name = (inv0[k]?).map InventoryItem.item_name)
      ∧ (∀ k : ℕ, ((rs.foldl (fun inv1 r => (cookStep servings inv1 r).1) inv0)[k]?).map
            InventoryItem.unit = (inv0[k]?).map InventoryItem.unit) := by
    intro rs
    induction rs with
    | nil => intro inv0; exact ⟨rfl, fun k => rfl, fun k => rfl⟩
    | cons r rs ih =>
      intro inv0
      simp only [List.foldl_cons]
      obtain ⟨l1, n1, u1⟩ := ih ((cookStep servings inv0 r).1)
      obtain ⟨l2, n2, u2, _⟩ := cookStep_frame servings inv0 r
      exact ⟨l1.trans l2, fun k => (n1 k).trans (n2 k), fun k => (u1 k).trans (u2 k)⟩
  have hfst := runDeduction_fst servings reqs inv []
  simp only [runDeduction]
  rw [hfst]
  exact hmain reqs inv

/-- C9: a deduction call only ever changes quantities: the inventory keeps
its length, and every record's name and unit fields are unchanged after the
whole call; moreover each single requirement mutates at most one record —
every position other than its single best-match index is untouched, and a
requirement with no match (or empty text) touches nothing. -/
theorem C9_quantity_only_frame (servings : Option ℤ) (reqs : List String)
    (inv inv0 : List InventoryItem) (r : String) :
    ((runDeduction servings reqs inv).1.length = inv.length
     ∧ (∀ k : ℕ, ((runDeduction servings reqs inv).1[k]?).map InventoryItem.item_name
         = (inv[k]?).map InventoryItem.item_name)
     ∧ (∀ k : ℕ, ((runDeduction servings reqs inv).1[k]?).map InventoryItem.unit
         = (inv[k]?).map InventoryItem.unit))
    ∧ (∀ (i : ℕ) (it : InventoryItem) (sc : ℚ),
        find_best_core inv0 (parse_ingredient r).2.2 (45 / 100) = (some (i, it), sc) →
        ∀ k : ℕ, k ≠ i → (cookStep servings inv0 r).1[k]? = inv0[k]?)
    ∧ (∀ sc : ℚ,
        find_best_core inv0 (parse_ingredient r).2.2 (45 / 100) = (none, sc) →
        (cookStep servings inv0 r).1 = inv0) := by
  refine ⟨runDeduction_frame servings reqs inv, ?_, ?_⟩
  · intro i it sc hfb k hk
    rcases cookStep_eq servings inv0 r with ⟨_, hcs⟩ | ⟨_, _, hcs⟩ |
        ⟨_, i0, it0, sc0, cq, hfb0, hcv, hcs⟩ | ⟨_, i0, it0, sc0, hfb0, hcv, hcs⟩
    · rw [hcs]
    · rw [hcs]
    · rw [hfb0] at hfb
      have hi : i0 = i := by
        have := congrArg Prod.fst hfb
        simp only [Option.some_inj, Prod.mk.injEq] at this
        exact this.1
      rw [hcs]
      exact (set_quantity_frame inv0 i0 it0 _ (find_best_core_mem hfb0)).2.2.2 k
        (by rw [hi]; exact hk)
    · rw [hfb0] at hfb
      have hi : i0 = i := by
        have := congrArg Prod.fst hfb
        simp only [Option.some_inj, Prod.mk.injEq] at this
        exact this.1
      rw [hcs]
      exact (set_quantity_frame inv0 i0 it0 _ (find_best_core_mem hfb0)).2.2.2 k
        (by rw [hi]; exact hk)
  · intro sc hfb
    rcases cookStep_eq servings inv0 r with ⟨_, hcs⟩ | ⟨_, _, hcs⟩ |
        ⟨_, i0, it0, sc0, cq, hfb0, hcv, hcs⟩ | ⟨_, i0, it0, sc0, hfb0, hcv, hcs⟩
    · rw [hcs]
    · rw [hcs]
    · rw [hfb0] at hfb
      have := congrArg Prod.fst hfb
      simp at this
    · rw [hfb0] at hfb
      have := congrArg Prod.fst hfb
      simp at this

/-- C9 witness: the frame theorem applied to a concrete two-record
inventory and one matching requirement, with the untouched record checked
concretely (the best match is index `0`, the `eggs` record is untouched). -/
theorem C9_witness :
    (((runDeduction (some 2) ["2 lbs milk"] [⟨"milk", 2, some "lb"⟩, ⟨"eggs", 6, some "pcs"⟩]).1.length
        = ([⟨"milk", 2, some "lb"⟩, ⟨"eggs", 6, some "pcs"⟩] : List InventoryItem).length
      ∧ (∀ k : ℕ, (((runDeduction (some 2) ["2 lbs milk"]
            [⟨"milk", 2, some "lb"⟩, ⟨"eggs", 6, some "pcs"⟩]).1)[k]?).map InventoryItem.item_name
          = (([⟨"milk", 2, some "lb"⟩, ⟨"eggs", 6, some "pcs"⟩] : List InventoryItem)[k]?).map
              InventoryItem.item_name)
      ∧ (∀ k : ℕ, (((runDeduction (some 2) ["2 lbs milk"]
            [⟨"milk", 2, some "lb"⟩, ⟨"eggs", 6, some "pcs"⟩]).1)[k]?).map InventoryItem.unit
          = (([⟨"milk", 2, some "lb"⟩, ⟨"eggs", 6, some "pcs"⟩] : List InventoryItem)[k]?).map
              InventoryItem.unit))
     ∧ (∀ (i : ℕ) (it : InventoryItem) (sc : ℚ),
         find_best_core [⟨"milk", 2, some "lb"⟩, ⟨"eggs", 6, some "pcs"⟩]
             (parse_ingredient "2 lbs milk").2.2 (45 / 100) = (some (i, it), sc) →
         ∀ k : ℕ, k ≠ i →
           ((cookStep (some 2) [⟨"milk", 2, some "lb"⟩, ⟨"eggs", 6, some "pcs"⟩] "2 lbs milk").1)[k]?
             = ([⟨"milk", 2, some "lb"⟩, ⟨"eggs", 6, some "pcs"⟩] : List InventoryItem)[k]?)
     ∧ (∀ sc : ℚ,
         find_best_core [⟨"milk", 2, some "lb"⟩, ⟨"eggs", 6, some "pcs"⟩]
             (parse_ingredient "2 lbs milk").2.2 (45 / 100) = (none, sc) →
         (cookStep (some 2) [⟨"milk", 2, some "lb"⟩, ⟨"eggs", 6, some "pcs"⟩] "2 lbs milk").1
           = [⟨"milk", 2, some "lb"⟩, ⟨"eggs", 6, some "pcs"⟩]))
    ∧ (runDeduction (some 2) ["2 lbs milk"]
        [⟨"milk", 2, some "lb"⟩, ⟨"eggs", 6, some "pcs"⟩]).1
        = [⟨"milk", 0, some "lb"⟩, ⟨"eggs", 6, some "pcs"⟩] :=
  ⟨C9_quantity_only_frame (some 2) ["2 lbs milk"]
      [⟨"milk", 2, some "lb"⟩, ⟨"eggs", 6, some "pcs"⟩]
      [⟨"milk", 2, some "lb"⟩, ⟨"eggs", 6, some "pcs"⟩] "2 lbs milk",
   by decide⟩

end PantryPilot
